import Mathlib

/-!
Verification of the r6-dissect-foundry diagnostic scripts.

Shallow embedding of the four Python scripts under `src/tools/`:
`checkquality.py` (jump/quality reporter), `checkdeaths.py` (death/track
alignment checker), `checkbjl.py` (position-range reporter) and
`diagmove.py` (raw-packet probe wrapper).  Python floats are modelled by
rationals; Python dicts by functions to `Option`; substring tests on
lines by infix tests on the underlying character lists.
-/

namespace Foundry

/-! ### checkquality.py — jump/quality reporter -/

/-- A planar position as used by `checkquality.py` (it reads only the
`x` and `y` fields of each position). -/
structure Pos2 where
  x : ℚ
  y : ℚ
deriving DecidableEq

/-- Squared planar displacement between consecutive positions:
`dx*dx + dy*dy` for `dx = cur.x - prev.x`, `dy = cur.y - prev.y`
(from `dx = pos[i]['x'] - pos[i-1]['x']` etc.). -/
def stepDist2 (prev cur : Pos2) : ℚ :=
  (cur.x - prev.x) * (cur.x - prev.x) + (cur.y - prev.y) * (cur.y - prev.y)

/-- The source compares `dist > thr` where `dist = (dx*dx+dy*dy)**0.5`;
for the nonnegative thresholds used this is equivalent to comparing the
squared displacement against `thr^2`, which keeps the test exact on ℚ. -/
def exceeds (thr : ℚ) (prev cur : Pos2) : Bool :=
  decide (thr ^ 2 < stepDist2 prev cur)

/-- Number of consecutive-position steps whose distance strictly exceeds
`thr`, mirroring the `for i in range(1, len(pos))` loop. -/
def countJumps (thr : ℚ) : List Pos2 → ℕ
  | p :: q :: rest => (if exceeds thr p q then 1 else 0) + countJumps thr (q :: rest)
  | _ => 0

/-- The percentage summary `pct = 100 * total_jumps / (len(pos) - 1)`,
computed only under the guard `if len(pos) > 1`. -/
def pctReport (pos : List Pos2) : Option ℚ :=
  if 1 < pos.length then
    some (100 * (countJumps 3 pos : ℚ) / ((pos.length : ℚ) - 1))
  else none

/-! ### checkdeaths.py — death/track alignment checker -/

/-- The countdown-to-elapsed conversion
`death_elapsed = 45.0 + (180.0 - countdown)`. -/
def death_elapsed (countdown : ℚ) : ℚ := 45 + (180 - countdown)

/-- The spec-level conversion `elapsed = prep + (round_duration - countdown)`
with explicit parameters; compared against `death_elapsed` for C1. -/
def specElapsed (prep roundDuration countdown : ℚ) : ℚ :=
  prep + (roundDuration - countdown)

/-- A feedback event as `checkdeaths.py` reads it.  Every field the script
accesses goes through `dict.get` with a default, so each is modelled as an
`Option`; `typeName` models the chain `ev.get('type', emptyDict).get('name', '')`
(a `none` stands for either dict level missing). -/
structure RawEvent where
  typeName : Option String
  target : Option String
  username : Option String
  timeInSeconds : Option ℚ

/-- Python dict assignment `d[k] = v` on a username-keyed dict. -/
def dictSet (d : String → Option ℚ) (k : String) (v : ℚ) : String → Option ℚ :=
  fun u => if u = k then some v else d u

/-- One iteration of the `for ev in feedback` loop building
`deaths_countdown`: a `Kill` event writes `ev.get('timeInSeconds', 0)`
under key `ev.get('target', '')`, a `Death` event under
`ev.get('username', '')`, anything else is ignored. -/
def rawStep (d : String → Option ℚ) (ev : RawEvent) : String → Option ℚ :=
  if ev.typeName.getD "" = "Kill" then
    dictSet d (ev.target.getD "") (ev.timeInSeconds.getD 0)
  else if ev.typeName.getD "" = "Death" then
    dictSet d (ev.username.getD "") (ev.timeInSeconds.getD 0)
  else d

/-- The `deaths_countdown` dict after folding the whole feedback list,
starting from the empty dict. -/
def buildDeaths (evs : List RawEvent) : String → Option ℚ :=
  evs.foldl rawStep (fun _ => none)

/-- The username a Kill/Death event records a time for (the key the loop
body writes), `none` for events of any other kind. -/
def victimOf (ev : RawEvent) : Option String :=
  if ev.typeName.getD "" = "Kill" then some (ev.target.getD "")
  else if ev.typeName.getD "" = "Death" then some (ev.username.getD "")
  else none

/-- The countdown timestamp a Kill/Death event records:
`ev.get('timeInSeconds', 0)`. -/
def deathTime (ev : RawEvent) : ℚ := ev.timeInSeconds.getD 0

/-- An event with every `.get` default already substituted
(`''` for the string fields, `0` for `timeInSeconds`). -/
def withDefaults (ev : RawEvent) : RawEvent :=
  ⟨some (ev.typeName.getD ""), some (ev.target.getD ""),
    some (ev.username.getD ""), some (ev.timeInSeconds.getD 0)⟩

/-! ### checkbjl.py — position-range reporter -/

/-- Python 3 `round(q)` to the nearest integer, ties to the even
integer (banker's rounding). -/
def roundHalfEven (q : ℚ) : ℤ :=
  if q - ⌊q⌋ < 1 / 2 then ⌊q⌋
  else if 1 / 2 < q - ⌊q⌋ then ⌊q⌋ + 1
  else if ⌊q⌋ % 2 = 0 then ⌊q⌋ else ⌊q⌋ + 1

/-- Python `round(v, 2)`: round to 2 decimal places. -/
def round2 (q : ℚ) : ℚ := (roundHalfEven (q * 100) : ℚ) / 100

/-- The per-axis set built by the `xs.add(round(p['x'], 2))` loop: the
deduplicated set of the coordinates rounded to 2 decimal places. -/
def roundedSet (coords : List ℚ) : Finset ℚ := (coords.map round2).toFinset

/-! ### diagmove.py — raw-packet probe wrapper -/

/-- Python's `pat in line` substring test. -/
def hasSub (line pat : String) : Bool := decide (pat.data <:+: line.data)

/-- The start-marker test
`'Player ID Probe' in line or 'Players:' in line or 'ANALYSIS 1' in line`. -/
def isStartMarker (line : String) : Bool :=
  hasSub line "Player ID Probe" || hasSub line "Players:" ||
    hasSub line "ANALYSIS 1"

/-- The end-marker test `'ANALYSIS 2' in line`. -/
def isEndMarker (line : String) : Bool := hasSub line "ANALYSIS 2"

/-- The `for line in lines` loop of `diagmove.py` with flag state
`in_section`: a start marker raises the flag, the line is printed while
the flag is up (including the line that raised it and the line holding
the end marker), and an end-marker line stops the loop after being
processed.  The output is the list of printed lines. -/
def diagEmit : List String → Bool → List String
  | [], _ => []
  | line :: rest, inSection =>
    if isEndMarker line then
      (if inSection || isStartMarker line then [line] else [])
    else
      (if inSection || isStartMarker line then [line] else []) ++
        diagEmit rest (inSection || isStartMarker line)

/-- The section the loop starts from: `in_section = False` initially. -/
def probeSection (lines : List String) : List String := diagEmit lines false

/-- Spec-level description: the prefix of the output up to and including
the first end-marker line (all of it when there is none). -/
def takeThruEnd : List String → List String
  | [] => []
  | line :: rest =>
    if isEndMarker line then [line] else line :: takeThruEnd rest

/-- Spec-level description of the emitted section: truncate the stdout at
the first end-marker line (keeping it), then emit from the first
start-marker line onward. -/
def sectionSpec (lines : List String) : List String :=
  (takeThruEnd lines).dropWhile (fun l => !isStartMarker l)

/-- A track position as `checkdeaths.py` reads it (only `timeInSeconds`
is accessed). -/
structure TrackPos where
  timeInSeconds : ℚ
deriving DecidableEq

/-- The three branches of the dead-player status message. -/
inductive DeathStatus where
  | good
  | badAfter
  | okBefore
deriving DecidableEq

/-- The per-player status: dead with one of the three alignment
classifications, or survived. -/
inductive Status where
  | dead (ds : DeathStatus)
  | survived
deriving DecidableEq

/-- The `if abs(diff) <= 10 / elif diff > 10 / else` classification of
`diff = track_end - death_elapsed`. -/
def classify (diff : ℚ) : DeathStatus :=
  if |diff| ≤ 10 then .good else if 10 < diff then .badAfter else .okBefore

/-- One iteration of the per-player loop of `checkdeaths.py`: a player
with no positions is skipped (`none`); otherwise, a player in the death
map gets the diff classification against the last track timestamp, and a
player absent from it is marked survived. -/
def playerStatus (deaths : String → Option ℚ) (username : String)
    (pos : List TrackPos) : Option Status :=
  match pos with
  | [] => none
  | p :: rest =>
    match deaths username with
    | some countdown =>
        some (.dead (classify
          ((rest.getLastD p).timeInSeconds - death_elapsed countdown)))
    | none => some .survived

end Foundry

namespace Foundry

lemma stepDist2_nonneg (p q : Pos2) : 0 ≤ stepDist2 p q := by
  have hx := mul_self_nonneg (q.x - p.x)
  have hy := mul_self_nonneg (q.y - p.y)
  unfold stepDist2
  linarith

lemma exceeds_ten_imp_three (p q : Pos2) (h : exceeds 10 p q = true) :
    exceeds 3 p q = true := by
  simp only [exceeds, decide_eq_true_eq] at h ⊢
  nlinarith

lemma countJumps_le_steps (thr : ℚ) (pos : List Pos2) :
    countJumps thr pos ≤ pos.length - 1 := by
  induction pos with
  | nil => simp [countJumps]
  | cons p rest ih =>
    cases rest with
    | nil => simp [countJumps]
    | cons q r =>
      simp only [countJumps, List.length_cons] at ih ⊢
      split <;> omega

lemma countJumps_mono (pos : List Pos2) :
    countJumps 10 pos ≤ countJumps 3 pos := by
  induction pos with
  | nil => simp [countJumps]
  | cons p rest ih =>
    cases rest with
    | nil => simp [countJumps]
    | cons q r =>
      simp only [countJumps]
      by_cases h10 : exceeds 10 p q = true
      · rw [if_pos h10, if_pos (exceeds_ten_imp_three p q h10)]
        omega
      · rw [if_neg h10]
        split <;> omega

/-- C1: the countdown-to-elapsed conversion is the pure function
`elapsed = prep + (round_duration - countdown)` with `prep = 45` and
`round_duration = 180`; countdown 180 maps to 45 and countdown 0 to 225. -/
theorem death_elapsed_is_linear_conversion :
    (∀ c : ℚ, death_elapsed c = specElapsed 45 180 c) ∧
    death_elapsed 180 = 45 ∧ death_elapsed 0 = 225 := by
  refine ⟨fun c => rfl, by norm_num [death_elapsed], by norm_num [death_elapsed]⟩

/-- C4: a consecutive-position step whose planar distance (the square root
of the squared displacement) equals a threshold (3 or 10) exactly is NOT
counted as exceeding it; a step is counted exactly when the distance is
strictly greater than the threshold. -/
theorem exceeds_strict_at_threshold (p q : Pos2) (thr : ℚ)
    (hthr : thr = 3 ∨ thr = 10)
    (h : Real.sqrt ((stepDist2 p q : ℚ) : ℝ) = (thr : ℝ)) :
    exceeds thr p q = false ∧
    ∀ r s : Pos2,
      (exceeds thr r s = true ↔ (thr : ℝ) < Real.sqrt ((stepDist2 r s : ℚ) : ℝ)) := by
  have hthr0 : (0 : ℚ) ≤ thr := by rcases hthr with rfl | rfl <;> norm_num
  have hthr0R : (0 : ℝ) ≤ (thr : ℚ) := by exact_mod_cast hthr0
  constructor
  · have hd0 : (0 : ℝ) ≤ ((stepDist2 p q : ℚ) : ℝ) := by
      exact_mod_cast stepDist2_nonneg p q
    have hsq : ((stepDist2 p q : ℚ) : ℝ) = ((thr : ℝ)) ^ 2 :=
      (Real.sqrt_eq_iff_eq_sq hd0 hthr0R).mp h
    have hq : stepDist2 p q = thr ^ 2 := by exact_mod_cast hsq
    simp only [exceeds, decide_eq_false_iff_not, not_lt, hq, le_refl]
  · intro r s
    rw [Real.lt_sqrt hthr0R]
    simp only [exceeds, decide_eq_true_eq]
    exact_mod_cast Iff.rfl

/-- Witness for C4 at the concrete step from (0,0) to (3,0), whose planar
distance is exactly the threshold 3. -/
theorem exceeds_strict_at_threshold_witness :
    (((3 : ℚ) = 3 ∨ (3 : ℚ) = 10) ∧
      Real.sqrt ((stepDist2 ⟨0, 0⟩ ⟨3, 0⟩ : ℚ) : ℝ) = ((3 : ℚ) : ℝ)) ∧
    exceeds 3 ⟨0, 0⟩ ⟨3, 0⟩ = false := by
  have hsqrt : Real.sqrt ((stepDist2 ⟨0, 0⟩ ⟨3, 0⟩ : ℚ) : ℝ) = ((3 : ℚ) : ℝ) := by
    have hd : ((stepDist2 ⟨0, 0⟩ ⟨3, 0⟩ : ℚ) : ℝ) = (3 : ℝ) ^ 2 := by
      norm_num [stepDist2]
    rw [hd, Real.sqrt_sq (by norm_num : (0 : ℝ) ≤ 3)]
    norm_num
  exact ⟨⟨Or.inl rfl, hsqrt⟩,
    (exceeds_strict_at_threshold ⟨0, 0⟩ ⟨3, 0⟩ 3 (Or.inl rfl) hsqrt).1⟩

/-- C5: a position sequence of length 0 or 1 yields zero counted steps at
both thresholds, and the percentage computation (the only division) is
never reached, so no division by zero can occur. -/
theorem short_track_no_steps (pos : List Pos2) (h : pos.length ≤ 1) :
    countJumps 3 pos = 0 ∧ countJumps 10 pos = 0 ∧ pctReport pos = none := by
  match pos with
  | [] => exact ⟨rfl, rfl, rfl⟩
  | [p] => exact ⟨rfl, rfl, rfl⟩
  | p :: q :: rest => simp at h

/-- Witness for C5 at the singleton sequence [(0,0)]. -/
theorem short_track_no_steps_witness :
    ([(⟨0, 0⟩ : Pos2)].length ≤ 1) ∧
    (countJumps 3 [(⟨0, 0⟩ : Pos2)] = 0 ∧ countJumps 10 [(⟨0, 0⟩ : Pos2)] = 0 ∧
      pctReport [(⟨0, 0⟩ : Pos2)] = none) :=
  ⟨by decide, short_track_no_steps [⟨0, 0⟩] (by decide)⟩

/-- C10: the count of steps exceeding the 10.0 threshold never exceeds the
count of steps exceeding the 3.0 threshold, and for a sequence of length
n ≥ 1 both counts are at most n - 1. -/
theorem jump_counts_monotone_and_bounded (pos : List Pos2) (h : 1 ≤ pos.length) :
    countJumps 10 pos ≤ countJumps 3 pos ∧
    countJumps 3 pos ≤ pos.length - 1 ∧ countJumps 10 pos ≤ pos.length - 1 :=
  ⟨countJumps_mono pos, countJumps_le_steps 3 pos, countJumps_le_steps 10 pos⟩

lemma rawStep_at_victim (d : String → Option ℚ) (ev : RawEvent) (u : String)
    (h : victimOf ev = some u) : rawStep d ev u = some (deathTime ev) := by
  unfold victimOf at h
  unfold rawStep deathTime dictSet
  split at h
  · rename_i hk
    rw [if_pos hk]
    obtain rfl : ev.target.getD "" = u := Option.some.inj h
    simp
  · split at h
    · rename_i hk hd
      rw [if_neg hk, if_pos hd]
      obtain rfl : ev.username.getD "" = u := Option.some.inj h
      simp
    · exact absurd h (by simp)

lemma rawStep_at_other (d : String → Option ℚ) (ev : RawEvent) (u : String)
    (h : victimOf ev ≠ some u) : rawStep d ev u = d u := by
  unfold victimOf at h
  unfold rawStep dictSet
  split
  · rename_i hk
    rw [if_pos hk] at h
    have : u ≠ ev.target.getD "" := fun he => h (by rw [he])
    simp [this]
  · rename_i hk
    rw [if_neg hk] at h
    split
    · rename_i hd
      rw [if_pos hd] at h
      have : u ≠ ev.username.getD "" := fun he => h (by rw [he])
      simp [this]
    · rfl

/-- C6: the death map is last-write-wins: the value recorded for a
username is the `timeInSeconds` of the last Kill/Death event in list order
whose victim key (Kill target or Death username) is that username. -/
theorem buildDeaths_last_write_wins (evs : List RawEvent) (u : String) :
    buildDeaths evs u =
      ((evs.filter fun ev => decide (victimOf ev = some u)).getLast?).map deathTime := by
  induction evs using List.reverseRecOn with
  | nil => rfl
  | append_singleton l ev ih =>
    have hfold : buildDeaths (l ++ [ev]) u = rawStep (buildDeaths l) ev u := by
      simp [buildDeaths, List.foldl_append]
    rw [hfold, List.filter_append]
    by_cases h : victimOf ev = some u
    · rw [rawStep_at_victim _ _ _ h]
      simp [h, List.getLast?_concat]
    · rw [rawStep_at_other _ _ _ h, ih]
      simp [h]

/-- C2 counterexample: a player in movements with an empty position
sequence and absent from the death map is skipped (no status), not
classified survived. -/
theorem empty_track_not_survived :
    playerStatus (fun _ => none) "alice" [] = none ∧
    playerStatus (fun _ => none) "alice" [] ≠ some Status.survived :=
  ⟨rfl, fun hcontra => by rw [show playerStatus (fun _ => none) "alice" [] = none from rfl] at hcontra; exact Option.noConfusion hcontra⟩

/-- C2 amended: a player absent from the death map is classified survived
for every NONEMPTY position sequence, regardless of its length; a player
with an empty position sequence is skipped with no classification. -/
theorem absent_from_death_map_survives (deaths : String → Option ℚ)
    (u : String) (pos : List TrackPos) (h : deaths u = none) :
    playerStatus deaths u pos =
      if pos.isEmpty then none else some Status.survived := by
  cases pos with
  | nil => rfl
  | cons p rest => simp [playerStatus, h]

/-- Witness for the amended C2 at a one-position track and the empty
death map. -/
theorem absent_from_death_map_survives_witness :
    ((fun _ => (none : Option ℚ)) "alice" = none) ∧
    playerStatus (fun _ => none) "alice" [⟨1⟩] =
      (if ([(⟨1⟩ : TrackPos)]).isEmpty then none else some Status.survived) :=
  ⟨rfl, absent_from_death_map_survives (fun _ => none) "alice" [⟨1⟩] rfl⟩

/-- C7: a player with a nonempty track who is in the death map is
classified from `diff = track_end - death_elapsed countdown`: `good`
exactly when `|diff| ≤ 10`, `badAfter` (track continues after death)
exactly when `diff > 10`, `okBefore` (track ends before death) exactly
when `diff < -10`; the three cases are mutually exclusive and exhaustive
since `classify` returns exactly one constructor. -/
theorem dead_player_classification (deaths : String → Option ℚ)
    (u : String) (p : TrackPos) (rest : List TrackPos) (c : ℚ)
    (hc : deaths u = some c) :
    playerStatus deaths u (p :: rest) =
      some (.dead (classify
        ((rest.getLastD p).timeInSeconds - death_elapsed c))) ∧
    ∀ diff : ℚ,
      (classify diff = .good ↔ |diff| ≤ 10) ∧
      (classify diff = .badAfter ↔ 10 < diff) ∧
      (classify diff = .okBefore ↔ diff < -10) := by
  constructor
  · simp [playerStatus, hc]
  · intro diff
    by_cases h1 : |diff| ≤ 10
    · obtain ⟨hlo, hhi⟩ := abs_le.mp h1
      refine ⟨?_, ?_, ?_⟩
      · simp [classify, h1]
      · constructor
        · intro hco; rw [classify, if_pos h1] at hco; exact DeathStatus.noConfusion hco
        · intro hgt; linarith
      · constructor
        · intro hco; rw [classify, if_pos h1] at hco; exact DeathStatus.noConfusion hco
        · intro hlt; linarith
    · have habs : 10 < |diff| := not_le.mp h1
      by_cases h2 : 10 < diff
      · refine ⟨?_, ?_, ?_⟩
        · constructor
          · intro hco; rw [classify, if_neg h1, if_pos h2] at hco
            exact DeathStatus.noConfusion hco
          · intro hle; exact absurd hle (by linarith)
        · simp [classify, h1, h2]
        · constructor
          · intro hco; rw [classify, if_neg h1, if_pos h2] at hco
            exact DeathStatus.noConfusion hco
          · intro hlt; linarith
      · have h3 : diff < -10 := by
          rcases lt_abs.mp habs with h | h
          · exact absurd h h2
          · linarith
        refine ⟨?_, ?_, ?_⟩
        · constructor
          · intro hco; rw [classify, if_neg h1, if_neg h2] at hco
            exact DeathStatus.noConfusion hco
          · intro hle; exact absurd hle h1
        · constructor
          · intro hco; rw [classify, if_neg h1, if_neg h2] at hco
            exact DeathStatus.noConfusion hco
          · intro hgt; exact absurd hgt h2
        · rw [classify, if_neg h1, if_neg h2]
          exact iff_of_true rfl h3

/-- Witness for C7: a Kill event on "bob" at countdown 100, and a track
ending at t = 200 (so diff = 200 - 125 = 75, classified badAfter). -/
theorem dead_player_classification_witness :
    (buildDeaths [⟨some "Kill", some "bob", none, some 100⟩] "bob" = some 100) ∧
    (playerStatus (buildDeaths [⟨some "Kill", some "bob", none, some 100⟩]) "bob"
        [⟨200⟩] =
      some (.dead (classify
        ((([] : List TrackPos).getLastD ⟨200⟩).timeInSeconds - death_elapsed 100))) ∧
    ∀ diff : ℚ,
      (classify diff = .good ↔ |diff| ≤ 10) ∧
      (classify diff = .badAfter ↔ 10 < diff) ∧
      (classify diff = .okBefore ↔ diff < -10)) :=
  ⟨by decide,
    dead_player_classification
      (buildDeaths [⟨some "Kill", some "bob", none, some 100⟩]) "bob"
      ⟨200⟩ [] 100 (by decide)⟩

/-- C9 counterexample: a Kill event lacking both the `timeInSeconds` and
the `username` field is processed without failure; the map records the
default time 0 for the target. -/
theorem missing_fields_are_defaulted_counterexample :
    buildDeaths [⟨some "Kill", some "victim", none, none⟩] "victim" = some 0 := by
  decide

/-- C9 amended: missing fields in Kill/Death feedback events do not make
processing fail; every field is read through a default (`""` for the
type name, target and username, `0` for `timeInSeconds`), so the death
map built from any event list equals the one built after substituting
those defaults. -/
theorem feedback_fields_defaulted (evs : List RawEvent) (u : String) :
    buildDeaths evs u = buildDeaths (evs.map withDefaults) u := by
  rw [buildDeaths, buildDeaths, List.foldl_map]
  congr 1

/-- Witness for C10 at the two-position sequence [(0,0),(5,0)]. -/
theorem jump_counts_monotone_and_bounded_witness :
    (1 ≤ ([(⟨0, 0⟩ : Pos2), ⟨5, 0⟩]).length) ∧
    (countJumps 10 [(⟨0, 0⟩ : Pos2), ⟨5, 0⟩] ≤ countJumps 3 [(⟨0, 0⟩ : Pos2), ⟨5, 0⟩] ∧
      countJumps 3 [(⟨0, 0⟩ : Pos2), ⟨5, 0⟩] ≤ ([(⟨0, 0⟩ : Pos2), ⟨5, 0⟩]).length - 1 ∧
      countJumps 10 [(⟨0, 0⟩ : Pos2), ⟨5, 0⟩] ≤ ([(⟨0, 0⟩ : Pos2), ⟨5, 0⟩]).length - 1) :=
  ⟨by decide, jump_counts_monotone_and_bounded [⟨0, 0⟩, ⟨5, 0⟩] (by decide)⟩

lemma roundHalfEven_intCast (n : ℤ) : roundHalfEven (n : ℚ) = n := by
  rw [roundHalfEven, Int.floor_intCast]
  norm_num

lemma round2_idem (q : ℚ) : round2 (round2 q) = round2 q := by
  rw [round2, round2, div_mul_cancel₀ _ (by norm_num : (100 : ℚ) ≠ 0),
    roundHalfEven_intCast]

/-- C8: rounding to 2 decimal places and set-deduplicating is idempotent:
re-rounding an already rounded-and-deduplicated coordinate set yields the
same set, both for an arbitrary set and for the per-axis sets the script
actually builds. -/
theorem round2_dedup_idempotent :
    (∀ s : Finset ℚ, (s.image round2).image round2 = s.image round2) ∧
    (∀ coords : List ℚ, (roundedSet coords).image round2 = roundedSet coords) := by
  have himg : ∀ s : Finset ℚ, (s.image round2).image round2 = s.image round2 := by
    intro s
    rw [Finset.image_image]
    congr 1
    funext q
    exact round2_idem q
  refine ⟨himg, fun coords => ?_⟩
  rw [roundedSet]
  ext x
  simp only [Finset.mem_image, List.mem_toFinset, List.mem_map]
  constructor
  · rintro ⟨y, ⟨q, hq, hy⟩, hx⟩
    exact ⟨q, hq, by rw [← hx, ← hy, round2_idem]⟩
  · rintro ⟨q, hq, hx⟩
    exact ⟨round2 q, ⟨q, hq, rfl⟩, by rw [round2_idem, hx]⟩

lemma diagEmit_inSection (lines : List String) :
    diagEmit lines true = takeThruEnd lines := by
  induction lines with
  | nil => rfl
  | cons line rest ih =>
    by_cases he : isEndMarker line = true
    · simp [diagEmit, takeThruEnd, he]
    · simp [diagEmit, takeThruEnd, he, ih]

/-- C3 counterexample: on the stdout ["Players:", "ANALYSIS 2"] the
wrapper emits BOTH lines — the 'ANALYSIS 2' terminator line is printed
before the loop breaks — whereas the claim says it stops before emitting
the terminator line, which would give ["Players:"] only. -/
theorem probe_section_counterexample :
    probeSection ["Players:", "ANALYSIS 2"] = ["Players:", "ANALYSIS 2"] ∧
    isStartMarker "Players:" = true ∧ isEndMarker "ANALYSIS 2" = true ∧
    probeSection ["Players:", "ANALYSIS 2"] ≠ ["Players:"] := by
  refine ⟨by decide, by decide, by decide, by decide⟩

/-- C3 amended: the wrapper emits the lines from the first start-marker
line through the first subsequent end-marker ('ANALYSIS 2') line,
INCLUDING that terminator line; if an end-marker line occurs before any
start marker, the loop stops there and nothing (more) is emitted.
Formally: the emitted output equals `sectionSpec`, which truncates the
stdout at the first end-marker line inclusive and then drops everything
before the first start-marker line. -/
theorem probe_section_emits_marked_slice (lines : List String) :
    probeSection lines = sectionSpec lines := by
  rw [probeSection]
  induction lines with
  | nil => rfl
  | cons line rest ih =>
    by_cases hs : isStartMarker line = true
    · by_cases he : isEndMarker line = true
      · simp [diagEmit, sectionSpec, takeThruEnd, hs, he]
      · simp [diagEmit, sectionSpec, takeThruEnd, hs, he, diagEmit_inSection]
    · by_cases he : isEndMarker line = true
      · simp [diagEmit, sectionSpec, takeThruEnd, hs, he]
      · simp only [diagEmit, sectionSpec, takeThruEnd, hs, he, Bool.false_or,
          if_neg, Bool.not_true, List.nil_append]
        rw [ih]
        simp [sectionSpec, hs]

end Foundry
